import Mathlib

/-!
Shallow embedding of the prefix-scoped document cursor
(`src/polodb_core/cursor.rs`) together with the collaborator contracts it
relies on (key encoder, ordered multi-level cursor, store handle), which are
part of the same repository but outside the provided slice and are therefore
modelled from the specification.  Byte sequences are modelled as `List Nat`.
-/

deriving instance DecidableEq for Except

/-- Errors of the database layer (`DbErr`).  Only the encoding failure is
relevant to this slice; storage I/O failures are outside the modelled
snapshot semantics. -/
inductive DbErr where
  | encodingError
deriving DecidableEq, Repr

/-- Modelled from the spec: document-model values (`bson::Bson`), treated as an
opaque tagged union; `nan` stands for a value whose type has no canonical byte
representation (e.g. a NaN float), so that encoding it fails. -/
inductive Bson where
  | int (n : Nat)
  | str (s : List Nat)
  | nan
deriving DecidableEq, Repr

/-- Modelled from the spec: a document (`bson::Document`); opaque to this
slice, only passed to `update_current`. -/
structure Document where
  fields : List (List Nat × Bson)
deriving DecidableEq, Repr

/-- Modelled from the spec: the canonical byte encoding of a single document
value, deterministic and total except on values with no canonical byte
representation. -/
def encodeValue : Bson → Except DbErr (List Nat)
  | .int n => .ok [1, n]
  | .str s => .ok (2 :: s ++ [0])
  | .nan => .error .encodingError

/-- Modelled from the spec: `crate::utils::bson::stacked_key` — the stacked
key of an ordered sequence of document values is the concatenation of their
canonical encodings; fails if any value fails to encode. -/
def stacked_key : List Bson → Except DbErr (List Nat)
  | [] => .ok []
  | v :: rest =>
      match encodeValue v with
      | .error e => .error e
      | .ok b =>
          match stacked_key rest with
          | .error e => .error e
          | .ok r => .ok (b ++ r)

/-- Modelled from the spec: `crate::utils::bson::stacked_key_bytes` — appends
the canonical encoding of one document value to a buffer; modelled as the
bytes appended to an empty buffer. -/
def stacked_key_bytes (v : Bson) : Except DbErr (List Nat) :=
  encodeValue v

/-- Strict lexicographic (byte-wise) order on byte sequences, the order Rust's
`[u8]::cmp` implements: shorter sequence first when one is a proper prefix of
the other. -/
def bytesLt : List Nat → List Nat → Bool
  | [], [] => false
  | [], _ :: _ => true
  | _ :: _, [] => false
  | a :: as, b :: bs => if a < b then true else if b < a then false else bytesLt as bs

/-- `k₁ ≤ k₂` in the byte-wise order. -/
def bytesLe (k₁ k₂ : List Nat) : Bool :=
  ! bytesLt k₂ k₁

/-- One entry of the flat, globally ordered keyspace snapshot. -/
structure Entry where
  key : List Nat
  value : List Nat
deriving DecidableEq, Repr

/-- Index of the first entry whose key is `≥ k` (the lower bound / insertion
point); equals the list length when every key is `< k`. -/
def lowerBoundIdx (entries : List Entry) (k : List Nat) : Nat :=
  match entries with
  | [] => 0
  | e :: rest => if bytesLe k e.key then 0 else lowerBoundIdx rest k + 1

/-- The keyspace snapshot is strictly ascending (adjacent keys strictly
increase byte-wise). -/
def sortedByKey : List Entry → Bool
  | [] => true
  | [_] => true
  | a :: b :: rest => bytesLt a.key b.key && sortedByKey (b :: rest)

/-- Modelled from the spec: the store handle (`LsmKvInner`) against which the
ordered cursor fetches the value for its current key. -/
structure LsmKvInner where
  fetch : List Nat → Except DbErr (Option (List Nat))

/-- Modelled from the spec: the Ordered Cursor collaborator
(`crate::lsm::multi_cursor::MultiCursor`) — a seekable cursor over a byte
ordered keyspace snapshot, as a sorted entry list plus a position. -/
structure MultiCursor where
  entries : List Entry
  pos : Nat
deriving DecidableEq, Repr

/-- Modelled from the spec: `seek` positions the cursor at the first entry
with key `≥ k` (seek-to-or-after). -/
def MultiCursor.seek (mc : MultiCursor) (k : List Nat) : MultiCursor :=
  { mc with pos := lowerBoundIdx mc.entries k }

/-- Modelled from the spec: `key` returns the current key, or none when the
cursor is past the last entry. -/
def MultiCursor.key (mc : MultiCursor) : Option (List Nat) :=
  (mc.entries.get? mc.pos).map Entry.key

/-- Modelled from the spec: `done` — the end-of-range test. -/
def MultiCursor.done (mc : MultiCursor) : Bool :=
  decide (mc.entries.length ≤ mc.pos)

/-- Modelled from the spec: `next` advances by one entry; advancing past the
true end of the store is a benign no-op. -/
def MultiCursor.next (mc : MultiCursor) : MultiCursor :=
  if mc.done then mc else { mc with pos := mc.pos + 1 }

/-- Modelled from the spec: `value` fetches, from the given store handle, the
value for the cursor's current key; no current key yields "no value". -/
def MultiCursor.value (mc : MultiCursor) (db : LsmKvInner) :
    Except DbErr (Option (List Nat)) :=
  match mc.key with
  | some k => db.fetch k
  | none => .ok none

/-- The prefix-scoped cursor (`Cursor` of `src/polodb_core/cursor.rs`).  The
Rust field `prefix` is a reserved word in Lean and is rendered `prefix_doc`. -/
structure Cursor where
  prefix_doc : Bson
  prefix_bytes : List Nat
  kv_cursor : MultiCursor
  current_key : Option (List Nat)
deriving DecidableEq, Repr

/-- Outcome of `Cursor::new`: the Rust constructor returns a bare `Cursor` and
calls `.unwrap()` on the encoding result, so an encoding failure is a panic,
not a returned error. -/
inductive ConstructResult where
  | ok (c : Cursor)
  | panicked
deriving DecidableEq, Repr

/-- Outcome of a fallible call that can also panic (`unimplemented!`). -/
inductive CallResult (α : Type) where
  | ok (a : α)
  | err (e : DbErr)
  | panicked
deriving DecidableEq, Repr

/-- `Cursor::new`: encodes the prefix once via `stacked_key_bytes` (panicking
on failure, per the source's `.unwrap()`); `current_key` starts unset. -/
def Cursor.new (p : Bson) (kv : MultiCursor) : ConstructResult :=
  match stacked_key_bytes p with
  | .error _ => .panicked
  | .ok bs => .ok { prefix_doc := p, prefix_bytes := bs, kv_cursor := kv, current_key := none }

/-- `Cursor::reset`: builds the stacked key for `[prefix]`, seeks the
underlying cursor to it and refreshes `current_key` from the resulting
position. -/
def Cursor.reset (c : Cursor) : Except DbErr Cursor :=
  match stacked_key [c.prefix_doc] with
  | .error e => .error e
  | .ok key_buffer =>
      let kv := c.kv_cursor.seek key_buffer
      .ok { c with kv_cursor := kv, current_key := kv.key }

/-- `Cursor::reset_by_pkey`: builds the stacked key for `[prefix, pkey]`,
seeks to it, refreshes `current_key`, and returns whether the landing is an
exact (byte-equal) match; a missing current key yields `false`.  The mutated
receiver is returned as the second component. -/
def Cursor.reset_by_pkey (c : Cursor) (pkey : Bson) : Except DbErr (Bool × Cursor) :=
  match stacked_key [c.prefix_doc, pkey] with
  | .error e => .error e
  | .ok key_buffer =>
      let kv := c.kv_cursor.seek key_buffer
      let c' := { c with kv_cursor := kv, current_key := kv.key }
      match kv.key with
      | some found => .ok (decide (found = key_buffer), c')
      | none => .ok (false, c')

/-- `is_prefix_with` (`src/polodb_core/cursor.rs`): whether `target` starts
with the bytes of `pre`. -/
def is_prefix_with (target : List Nat) (pre : List Nat) : Bool :=
  if target.length < pre.length then false
  else decide (target.take pre.length = pre)

/-- `Cursor::peek_data`: "no value" when `current_key` is unset or escapes the
prefix; otherwise delegates to the underlying cursor's value fetch. -/
def Cursor.peek_data (c : Cursor) (db : LsmKvInner) : Except DbErr (Option (List Nat)) :=
  match c.current_key with
  | some current_key =>
      if ! is_prefix_with current_key c.prefix_bytes then .ok none
      else c.kv_cursor.value db
  | none => .ok none

/-- `Cursor::update_current`: the body is `unimplemented!()`, an unconditional
panic before any state change; the untouched receiver is returned alongside. -/
def Cursor.update_current (c : Cursor) (_doc : Document) : CallResult Unit × Cursor :=
  (.panicked, c)

/-- `Cursor::has_next`: false when the underlying cursor is done, or when
`current_key` is set but escapes the prefix; true otherwise. -/
def Cursor.has_next (c : Cursor) : Bool :=
  if c.kv_cursor.done then false
  else
    match c.current_key with
    | some current_key => if ! is_prefix_with current_key c.prefix_bytes then false else true
    | none => true

/-- `Cursor::next`: advances the underlying cursor only; the source does not
touch `current_key` here. -/
def Cursor.next (c : Cursor) : Cursor :=
  { c with kv_cursor := c.kv_cursor.next }

/-- Modelled from the spec: `construct(prefix, underlying_cursor)` as the spec
words it — the encoding failure is propagated to the immediate caller as an
`EncodingError` value rather than panicking.  Used only to compare the
constructor of the source against the spec's wording. -/
def construct_spec (p : Bson) (kv : MultiCursor) : Except DbErr Cursor :=
  match stacked_key_bytes p with
  | .error e => .error e
  | .ok bs => .ok { prefix_doc := p, prefix_bytes := bs, kv_cursor := kv, current_key := none }

/-- A non-mutating or advancing call made on a positioned cursor: `next()`,
`peek_data(db)` or `has_next()`.  `peek_data` and `has_next` take the receiver
immutably in the source, so only `next` changes the state. -/
inductive ReadOp where
  | next
  | peek (db : LsmKvInner)
  | hasNext

/-- Runs a sequence of `next`/`peek_data`/`has_next` calls, threading the
cursor state. -/
def runOps (c : Cursor) : List ReadOp → Cursor
  | [] => c
  | op :: rest =>
      runOps (match op with
        | .next => c.next
        | .peek _ => c
        | .hasNext => c) rest

/-! ### Concrete fixtures

A two-entry keyspace snapshot under the collection prefix `Bson.int 5`
(encoded `[1, 5]`), with primary keys `1` and `2`. -/

/-- Two entries of one collection, in ascending key order. -/
def demoEntries : List Entry :=
  [⟨[1, 5, 1, 1], [10]⟩, ⟨[1, 5, 1, 2], [20]⟩]

/-- An ordered cursor at the start of the demo snapshot. -/
def demoMC : MultiCursor := ⟨demoEntries, 0⟩

/-- The prefix-scoped cursor `Cursor.new (Bson.int 5) demoMC` yields. -/
def demoCursor : Cursor := ⟨Bson.int 5, [1, 5], demoMC, none⟩

/-- `demoCursor` after `reset`: positioned on the first collection entry. -/
def demoAfterReset : Cursor := ⟨Bson.int 5, [1, 5], ⟨demoEntries, 0⟩, some [1, 5, 1, 1]⟩

/-- A store handle resolving only the first demo key. -/
def demoDb : LsmKvInner :=
  ⟨fun k => Except.ok (if k = [1, 5, 1, 1] then some [10] else none)⟩

/-- An empty document, fed to `update_current`. -/
def demoDoc : Document := ⟨[]⟩

/-- A cursor whose underlying cursor has walked past the last entry. -/
def exhaustedCursor : Cursor := ⟨Bson.int 5, [1, 5], ⟨demoEntries, 2⟩, none⟩

/-- A cursor whose cached key has escaped the collection prefix. -/
def strayCursor : Cursor := ⟨Bson.int 5, [1, 5], ⟨demoEntries, 1⟩, some [9, 9]⟩

/-- `pos` is the insertion point of the key `kb` in the snapshot `entries`:
every entry strictly before `pos` has key `< kb`, the entry at `pos` (when one
exists) has key `≥ kb`, and — on a strictly ascending snapshot — that entry's
key is the smallest key `≥ kb`. -/
def insertionPointAt (entries : List Entry) (kb : List Nat) (pos : Nat) : Prop :=
  pos ≤ entries.length ∧
  (∀ x ∈ entries.take pos, bytesLe kb x.key = false) ∧
  ∀ hp : pos < entries.length,
    bytesLe kb entries[pos].key = true ∧
    (sortedByKey entries = true →
      ∀ x ∈ entries, bytesLe kb x.key = true → bytesLe entries[pos].key x.key = true)

/-- A concrete read-call sequence: advance, probe, peek, advance. -/
def demoOps : List ReadOp :=
  [ReadOp.next, ReadOp.hasNext, ReadOp.peek demoDb, ReadOp.next]

/-! ### Facts about the byte-wise order -/

/-- The strict byte-wise order is irreflexive. -/
theorem bytesLt_irrefl (a : List Nat) : bytesLt a a = false := by
  induction a with
  | nil => rfl
  | cons x xs ih => simp [bytesLt, ih]

/-- The strict byte-wise order is asymmetric. -/
theorem bytesLt_asymm (a b : List Nat) (h : bytesLt a b = true) : bytesLt b a = false := by
  induction a generalizing b with
  | nil =>
    cases b with
    | nil => simp [bytesLt] at h
    | cons y ys => rfl
  | cons x xs ih =>
    cases b with
    | nil => simp [bytesLt] at h
    | cons y ys =>
      simp only [bytesLt] at h ⊢
      by_cases hxy : x < y
      · have hyx : ¬ y < x := Nat.lt_asymm hxy
        simp [hxy, hyx]
      · by_cases hyx : y < x
        · simp [hxy, hyx] at h
        · simp only [hxy, hyx, if_false] at h ⊢
          exact ih ys h

/-- The strict byte-wise order is transitive. -/
theorem bytesLt_trans (a b c : List Nat) (hab : bytesLt a b = true)
    (hbc : bytesLt b c = true) : bytesLt a c = true := by
  induction a generalizing b c with
  | nil =>
    cases c with
    | nil =>
      cases b with
      | nil => simp [bytesLt] at hab
      | cons y ys => simp [bytesLt] at hbc
    | cons z zs => rfl
  | cons x xs ih =>
    cases b with
    | nil => simp [bytesLt] at hab
    | cons y ys =>
      cases c with
      | nil => simp [bytesLt] at hbc
      | cons z zs =>
        simp only [bytesLt] at hab hbc ⊢
        by_cases hxy : x < y
        · by_cases hyz : y < z
          · simp [Nat.lt_trans hxy hyz]
          · by_cases hzy : z < y
            · simp [hyz, hzy] at hbc
            · have hyzeq : y = z := Nat.le_antisymm (Nat.not_lt.mp hzy) (Nat.not_lt.mp hyz)
              subst hyzeq
              simp [hxy]
        · by_cases hyx : y < x
          · simp [hxy, hyx] at hab
          · have hxyeq : x = y := Nat.le_antisymm (Nat.not_lt.mp hyx) (Nat.not_lt.mp hxy)
            subst hxyeq
            simp only [hxy, if_false, Nat.lt_irrefl] at hab
            by_cases hyz : x < z
            · simp [hyz]
            · by_cases hzy : z < x
              · simp [hyz, hzy] at hbc
              · simp only [hyz, hzy, if_false] at hbc ⊢
                exact ih ys zs hab hbc

/-- The reflexivity of the non-strict byte-wise order. -/
theorem bytesLe_refl (a : List Nat) : bytesLe a a = true := by
  simp [bytesLe, bytesLt_irrefl]

/-- A strict byte-wise inequality gives the non-strict one. -/
theorem bytesLt_le (a b : List Nat) (h : bytesLt a b = true) : bytesLe a b = true := by
  simp [bytesLe, bytesLt_asymm a b h]

/-- Failing the non-strict order is exactly the reversed strict order. -/
theorem bytesLe_false_iff (a b : List Nat) : bytesLe a b = false ↔ bytesLt b a = true := by
  cases h : bytesLt b a <;> simp [bytesLe, h]

/-! ### Facts about the lower-bound (insertion-point) search -/

/-- The lower bound never points past the end of the list. -/
theorem lowerBoundIdx_le_length (l : List Entry) (k : List Nat) :
    lowerBoundIdx l k ≤ l.length := by
  induction l with
  | nil => simp [lowerBoundIdx]
  | cons e rest ih =>
    simp only [lowerBoundIdx, List.length_cons]
    split
    · exact Nat.zero_le _
    · exact Nat.succ_le_succ ih

/-- Every entry strictly before the lower bound has key `< k`. -/
theorem lowerBoundIdx_mem_take (l : List Entry) (k : List Nat) :
    ∀ x ∈ l.take (lowerBoundIdx l k), bytesLe k x.key = false := by
  induction l with
  | nil => simp
  | cons e rest ih =>
    intro x hx
    cases hb : bytesLe k e.key with
    | true => simp [lowerBoundIdx, hb] at hx
    | false =>
      simp only [lowerBoundIdx, hb, Bool.false_eq_true, if_false] at hx
      rw [List.take_succ_cons] at hx
      rcases List.mem_cons.mp hx with he | hm
      · rw [he]; exact hb
      · exact ih x hm

/-- When the lower bound lands on an entry, that entry's key is `≥ k`. -/
theorem lowerBoundIdx_getElem (l : List Entry) (k : List Nat)
    (h : lowerBoundIdx l k < l.length) :
    bytesLe k l[lowerBoundIdx l k].key = true := by
  induction l with
  | nil => simp at h
  | cons e rest ih =>
    cases hb : bytesLe k e.key with
    | true => simp [lowerBoundIdx, hb]
    | false =>
      have h' : lowerBoundIdx rest k < rest.length := by
        simp only [lowerBoundIdx, hb, Bool.false_eq_true, if_false, List.length_cons] at h
        omega
      simp only [lowerBoundIdx, hb, Bool.false_eq_true, if_false, List.getElem_cons_succ]
      exact ih h'

/-! ### Facts about sorted snapshots -/

/-- A tail of a strictly ascending snapshot is strictly ascending. -/
theorem sortedByKey_tail (e : Entry) (l : List Entry) (h : sortedByKey (e :: l) = true) :
    sortedByKey l = true := by
  cases l with
  | nil => rfl
  | cons b rest =>
    simp only [sortedByKey, Bool.and_eq_true] at h
    exact h.2

/-- In a strictly ascending snapshot, the head's key is below every later key. -/
theorem sortedByKey_head_lt (l : List Entry) :
    ∀ e, sortedByKey (e :: l) = true → ∀ x ∈ l, bytesLt e.key x.key = true := by
  induction l with
  | nil =>
    intro e _ x hx
    simp at hx
  | cons b rest ih =>
    intro e h x hx
    simp only [sortedByKey, Bool.and_eq_true] at h
    rcases List.mem_cons.mp hx with he | hm
    · rw [he]; exact h.1
    · exact bytesLt_trans _ _ _ h.1 (ih b h.2 x hm)

/-- Dropping a leading segment keeps a snapshot strictly ascending. -/
theorem sortedByKey_drop (n : Nat) (l : List Entry) (h : sortedByKey l = true) :
    sortedByKey (l.drop n) = true := by
  induction n generalizing l with
  | zero => exact h
  | succ m ih =>
    cases l with
    | nil => rfl
    | cons e rest =>
      rw [List.drop_succ_cons]
      exact ih rest (sortedByKey_tail e rest h)

/-- The lower-bound search is the insertion point of the sought key. -/
theorem lowerBoundIdx_insertionPoint (l : List Entry) (k : List Nat) :
    insertionPointAt l k (lowerBoundIdx l k) := by
  refine ⟨lowerBoundIdx_le_length l k, lowerBoundIdx_mem_take l k, ?_⟩
  intro hp
  refine ⟨lowerBoundIdx_getElem l k hp, ?_⟩
  intro hs x hx hkx
  have hsplit : l.take (lowerBoundIdx l k) ++ l.drop (lowerBoundIdx l k) = l :=
    List.take_append_drop _ l
  rcases List.mem_append.mp (by rw [hsplit]; exact hx :
      x ∈ l.take (lowerBoundIdx l k) ++ l.drop (lowerBoundIdx l k)) with h1 | h2
  · have hfalse := lowerBoundIdx_mem_take l k x h1
    rw [hkx] at hfalse
    cases hfalse
  · have hdrop : l.drop (lowerBoundIdx l k)
        = l[lowerBoundIdx l k] :: l.drop (lowerBoundIdx l k + 1) :=
      List.drop_eq_getElem_cons hp
    rw [hdrop] at h2
    rcases List.mem_cons.mp h2 with he | hm
    · rw [he]
      exact bytesLe_refl _
    · have hs' : sortedByKey (l[lowerBoundIdx l k] :: l.drop (lowerBoundIdx l k + 1)) = true := by
        rw [← hdrop]
        exact sortedByKey_drop _ l hs
      exact bytesLt_le _ _ (sortedByKey_head_lt _ _ hs' x hm)

/-! ### Cursor-level bookkeeping lemmas -/

/-- `next` leaves the cached key untouched (as the source does). -/
theorem next_current_key (c : Cursor) : c.next.current_key = c.current_key := rfl

/-- `next` leaves the prefix bytes untouched. -/
theorem next_prefix_bytes (c : Cursor) : c.next.prefix_bytes = c.prefix_bytes := rfl

/-- A sequence of read calls leaves the cached key untouched. -/
theorem runOps_current_key (c : Cursor) (ops : List ReadOp) :
    (runOps c ops).current_key = c.current_key := by
  induction ops generalizing c with
  | nil => rfl
  | cons op rest ih =>
    cases op with
    | next => exact ih c.next
    | peek db => exact ih c
    | hasNext => exact ih c

/-- A sequence of read calls leaves the prefix bytes untouched. -/
theorem runOps_prefix_bytes (c : Cursor) (ops : List ReadOp) :
    (runOps c ops).prefix_bytes = c.prefix_bytes := by
  induction ops generalizing c with
  | nil => rfl
  | cons op rest ih =>
    cases op with
    | next => exact ih c.next
    | peek db => exact ih c
    | hasNext => exact ih c

/-- When `has_next` holds and a key is cached, the key carries the prefix. -/
theorem has_next_some (c : Cursor) (k : List Nat) (hk : c.current_key = some k)
    (h : c.has_next = true) : is_prefix_with k c.prefix_bytes = true := by
  unfold Cursor.has_next at h
  cases hd : c.kv_cursor.done with
  | true => simp [hd] at h
  | false =>
    rw [hd] at h
    simp only [Bool.false_eq_true, if_false, hk] at h
    cases hp : is_prefix_with k c.prefix_bytes with
    | true => rfl
    | false => simp [hp] at h

/-- A done underlying cursor makes `has_next` false. -/
theorem has_next_of_done (c : Cursor) (hd : c.kv_cursor.done = true) :
    c.has_next = false := by
  unfold Cursor.has_next
  simp [hd]

/-- A cached key outside the prefix makes `has_next` false. -/
theorem has_next_of_stray (c : Cursor) (k : List Nat) (hk : c.current_key = some k)
    (hp : is_prefix_with k c.prefix_bytes = false) : c.has_next = false := by
  unfold Cursor.has_next
  cases hd : c.kv_cursor.done with
  | true => rfl
  | false => simp [hk, hp]

/-- Advancing never revives a done underlying cursor. -/
theorem done_next (mc : MultiCursor) (hd : mc.done = true) : mc.next.done = true := by
  unfold MultiCursor.next
  simp [hd]

/-- One `next` call keeps an exhausted cursor exhausted. -/
theorem has_next_false_next (c : Cursor) (h : c.has_next = false) :
    c.next.has_next = false := by
  unfold Cursor.has_next at h
  cases hd : c.kv_cursor.done with
  | true => exact has_next_of_done c.next (done_next c.kv_cursor hd)
  | false =>
    rw [hd] at h
    cases hk : c.current_key with
    | none => simp [hk] at h
    | some k =>
      rw [hk] at h
      cases hp : is_prefix_with k c.prefix_bytes with
      | true => simp [hp] at h
      | false =>
        refine has_next_of_stray c.next k ?_ ?_
        · rw [next_current_key]; exact hk
        · rw [next_prefix_bytes]; exact hp

/-- The stacked key of a singleton sequence is the value's own encoding. -/
theorem stacked_key_singleton (v : Bson) (bs : List Nat)
    (h : encodeValue v = Except.ok bs) : stacked_key [v] = Except.ok bs := by
  simp only [stacked_key, h, List.append_nil]

/-- Inversion of a successful construction: the stored prefix bytes are the
prefix's encoding and no key is cached yet. -/
theorem new_shape (p : Bson) (kv : MultiCursor) (c : Cursor)
    (h : Cursor.new p kv = ConstructResult.ok c) :
    ∃ bs, stacked_key_bytes p = Except.ok bs ∧ c = ⟨p, bs, kv, none⟩ := by
  unfold Cursor.new at h
  cases hb : stacked_key_bytes p with
  | error e => rw [hb] at h; cases h
  | ok bs =>
    rw [hb] at h
    injection h with h'
    exact ⟨bs, rfl, h'.symm⟩

/-- Inversion of a successful `reset`: the prefix encoded, the underlying
cursor sought to it, and the cached key refreshed from the landing. -/
theorem reset_shape (c c1 : Cursor) (h : c.reset = Except.ok c1) :
    ∃ kb, stacked_key [c.prefix_doc] = Except.ok kb ∧
      c1 = { c with kv_cursor := c.kv_cursor.seek kb, current_key := (c.kv_cursor.seek kb).key } := by
  unfold Cursor.reset at h
  cases he : stacked_key [c.prefix_doc] with
  | error e => rw [he] at h; cases h
  | ok kb =>
    rw [he] at h
    injection h with h'
    exact ⟨kb, rfl, h'.symm⟩

/-- An underlying cursor with no current key is exhausted. -/
theorem key_none_done (mc : MultiCursor) (h : mc.key = none) : mc.done = true := by
  unfold MultiCursor.key at h
  unfold MultiCursor.done
  cases hg : mc.entries.get? mc.pos with
  | some e => rw [hg] at h; cases h
  | none => exact decide_eq_true (List.get?_eq_none.mp hg)

/-! ### The claims -/

/-- C10: `is_prefix_with target pre` is total and returns `true` exactly when
`target` is at least as long as `pre` and its first `pre.length` bytes equal
`pre`; in particular it accepts the empty prefix and rejects any target
shorter than the prefix. -/
theorem C10_is_prefix_with_spec (target : List Nat) (pre : List Nat) :
    (is_prefix_with target pre = true ↔
      pre.length ≤ target.length ∧ target.take pre.length = pre) ∧
    is_prefix_with target [] = true ∧
    (target.length < pre.length → is_prefix_with target pre = false) := by
  refine ⟨⟨?_, ?_⟩, ?_, ?_⟩
  · intro h
    unfold is_prefix_with at h
    by_cases hl : target.length < pre.length
    · rw [if_pos hl] at h
      cases h
    · rw [if_neg hl] at h
      exact ⟨Nat.not_lt.mp hl, of_decide_eq_true h⟩
  · rintro ⟨h1, h2⟩
    unfold is_prefix_with
    rw [if_neg (by omega)]
    exact decide_eq_true h2
  · unfold is_prefix_with
    simp
  · intro h
    unfold is_prefix_with
    rw [if_pos h]

/-- C10 witness: the helper evaluated on concrete inputs through the theorem:
a genuine prefix is accepted, a too-short target is rejected. -/
theorem C10_is_prefix_with_spec_witness :
    is_prefix_with [7, 8, 9] [7, 8] = true ∧
    (([7] : List Nat).length < ([7, 8] : List Nat).length) ∧
    is_prefix_with [7] [7, 8] = false :=
  ⟨(C10_is_prefix_with_spec [7, 8, 9] [7, 8]).1.mpr (by decide),
   by decide,
   (C10_is_prefix_with_spec [7] [7, 8]).2.2 (by decide)⟩

/-- C8: `update_current` unconditionally signals the unsupported-operation
panic (`unimplemented!`) — an outcome distinct from any success, never a
silent no-op — and the cursor state it leaves behind is unchanged. -/
theorem C8_update_current_unsupported (c : Cursor) (d : Document) :
    (c.update_current d).1 = CallResult.panicked ∧
    (∀ u : Unit, (c.update_current d).1 ≠ CallResult.ok u) ∧
    (c.update_current d).2 = c := by
  refine ⟨rfl, ?_, rfl⟩
  intro u h
  cases h

/-- C8 witness: the unsupported-operation behavior at a concrete call. -/
theorem C8_update_current_unsupported_witness :
    (demoCursor.update_current demoDoc).1 = CallResult.panicked ∧
    (demoCursor.update_current demoDoc).2 = demoCursor :=
  ⟨(C8_update_current_unsupported demoCursor demoDoc).1,
   (C8_update_current_unsupported demoCursor demoDoc).2.2⟩

/-- C1: exhibit of the divergence — after a successful `reset` followed by
`next()`, the cached `current_key` still holds the pre-advance key while the
underlying cursor's key has moved on: the source's `next` does not refresh
the cache, contradicting the specified always-refreshed-cache invariant. -/
theorem C1_next_leaves_current_key_stale :
    demoCursor.reset = Except.ok demoAfterReset ∧
    demoAfterReset.next.current_key = some [1, 5, 1, 1] ∧
    demoAfterReset.next.kv_cursor.key = some [1, 5, 1, 2] ∧
    demoAfterReset.next.current_key ≠ demoAfterReset.next.kv_cursor.key :=
  ⟨by decide, by decide, by decide, by decide⟩

/-- C4: refuted as stated — a cursor whose `current_key` is unset does not
always make `has_next()` false: a freshly constructed cursor over a non-empty
snapshot has no cached key, yet `has_next()` is already true, because the
source only rejects a *set* key lacking the prefix and otherwise trusts the
underlying cursor's `done()`. -/
theorem C4_counterexample :
    demoCursor.current_key = none ∧ demoCursor.has_next = true :=
  ⟨rfl, by decide⟩

/-- C4 (amended): a cached key lacking `prefix_bytes` as a byte-prefix always
forces `has_next() = false`; and an unset `current_key` forces
`has_next() = false` in the states `reset()` produces, where an unset key
means the underlying cursor is exhausted. -/
theorem C4_amended_has_next_false :
    (∀ c : Cursor, ∀ k, c.current_key = some k →
      is_prefix_with k c.prefix_bytes = false → c.has_next = false) ∧
    (∀ c c1 : Cursor, c.reset = Except.ok c1 → c1.current_key = none →
      c1.has_next = false) := by
  constructor
  · intro c k hk hp
    exact has_next_of_stray c k hk hp
  · intro c c1 hr hnone
    obtain ⟨kb, henc, hc1⟩ := reset_shape c c1 hr
    subst hc1
    exact has_next_of_done _ (key_none_done _ hnone)

/-- C4 witness: the amended statement at a concrete stray-key cursor. -/
theorem C4_amended_has_next_false_witness :
    strayCursor.current_key = some [9, 9] ∧
    is_prefix_with [9, 9] strayCursor.prefix_bytes = false ∧
    strayCursor.has_next = false :=
  ⟨rfl, by decide, C4_amended_has_next_false.1 strayCursor [9, 9] rfl (by decide)⟩

/-- C6: `peek_data` yields the non-error "no value" whenever no key is cached
or the cached key escapes the prefix, and otherwise returns exactly what the
underlying cursor's value fetch yields for the given store handle. -/
theorem C6_peek_data_spec (c : Cursor) (db : LsmKvInner) :
    (c.current_key = none → c.peek_data db = Except.ok none) ∧
    (∀ k, c.current_key = some k → is_prefix_with k c.prefix_bytes = false →
      c.peek_data db = Except.ok none) ∧
    (∀ k, c.current_key = some k → is_prefix_with k c.prefix_bytes = true →
      c.peek_data db = c.kv_cursor.value db) := by
  refine ⟨?_, ?_, ?_⟩
  · intro h
    unfold Cursor.peek_data
    rw [h]
  · intro k hk hp
    unfold Cursor.peek_data
    rw [hk]
    simp [hp]
  · intro k hk hp
    unfold Cursor.peek_data
    rw [hk]
    simp [hp]

/-- C6 witness: a positioned in-prefix cursor delegates its peek to the
underlying value fetch against the concrete store handle. -/
theorem C6_peek_data_spec_witness :
    demoAfterReset.current_key = some [1, 5, 1, 1] ∧
    is_prefix_with [1, 5, 1, 1] demoAfterReset.prefix_bytes = true ∧
    demoAfterReset.peek_data demoDb = demoAfterReset.kv_cursor.value demoDb :=
  ⟨rfl, by decide,
   (C6_peek_data_spec demoAfterReset demoDb).2.2 [1, 5, 1, 1] rfl (by decide)⟩

/-- C5: exhaustion stability — once `has_next()` is false, every further
sequence of `next()`, `peek_data()` and `has_next()` calls containing no
reset keeps it false. -/
theorem C5_exhaustion_stability (c : Cursor) (ops : List ReadOp)
    (h : c.has_next = false) : (runOps c ops).has_next = false := by
  induction ops generalizing c with
  | nil => exact h
  | cons op rest ih =>
    cases op with
    | next => exact ih c.next (has_next_false_next c h)
    | peek db => exact ih c h
    | hasNext => exact ih c h

/-- C5 witness: a concretely exhausted cursor stays exhausted across a
concrete read-call sequence. -/
theorem C5_exhaustion_stability_witness :
    exhaustedCursor.has_next = false ∧
    (runOps exhaustedCursor demoOps).has_next = false :=
  ⟨by decide, C5_exhaustion_stability exhaustedCursor demoOps (by decide)⟩

/-- C2: prefix containment — for a constructed cursor, after a successful
`reset()`, at every later state reached by read calls (`next`, `peek_data`,
`has_next`) where `has_next()` is true, any cached key the cursor exposes
carries `encode([prefix])` as a byte-prefix; a violating key is never
yielded. -/
theorem C2_prefix_containment (p : Bson) (kv0 : MultiCursor) (c c1 : Cursor)
    (pb : List Nat) (ops : List ReadOp) (k : List Nat)
    (hnew : Cursor.new p kv0 = ConstructResult.ok c)
    (henc : stacked_key [p] = Except.ok pb)
    (hreset : c.reset = Except.ok c1)
    (hk : (runOps c1 ops).current_key = some k)
    (hhn : (runOps c1 ops).has_next = true) :
    is_prefix_with k pb = true := by
  obtain ⟨bs, hbs, hc⟩ := new_shape p kv0 c hnew
  have hpb : pb = bs := by
    rw [stacked_key_singleton p bs hbs] at henc
    injection henc with h'
    exact h'.symm
  obtain ⟨kb, hkb, hc1⟩ := reset_shape c c1 hreset
  have hpre : (runOps c1 ops).prefix_bytes = pb := by
    rw [runOps_prefix_bytes, hc1, hpb, hc]
  have := has_next_some (runOps c1 ops) k hk hhn
  rw [hpre] at this
  exact this

/-- C2 witness: on the concrete snapshot, right after `reset` the yielded key
carries the encoded prefix. -/
theorem C2_prefix_containment_witness :
    Cursor.new (Bson.int 5) demoMC = ConstructResult.ok demoCursor ∧
    stacked_key [Bson.int 5] = Except.ok [1, 5] ∧
    demoCursor.reset = Except.ok demoAfterReset ∧
    (runOps demoAfterReset []).current_key = some [1, 5, 1, 1] ∧
    (runOps demoAfterReset []).has_next = true ∧
    is_prefix_with [1, 5, 1, 1] [1, 5] = true :=
  ⟨by decide, by decide, by decide, by decide, by decide,
   C2_prefix_containment (Bson.int 5) demoMC demoCursor demoAfterReset [1, 5] [] [1, 5, 1, 1]
     (by decide) (by decide) (by decide) (by decide) (by decide)⟩

/-- C9: idempotent reset — a second `reset()` with no intervening store
mutation returns exactly the state the first one produced: same underlying
position and same cached `current_key`. -/
theorem C9_reset_idempotent (c c1 : Cursor) (h : c.reset = Except.ok c1) :
    c1.reset = Except.ok c1 := by
  obtain ⟨kb, henc, hc1⟩ := reset_shape c c1 h
  subst hc1
  unfold Cursor.reset
  have hpd : ({ c with kv_cursor := c.kv_cursor.seek kb, current_key := (c.kv_cursor.seek kb).key } : Cursor).prefix_doc = c.prefix_doc := rfl
  rw [hpd, henc]
  rfl

/-- C9 witness: the concrete cursor reaches its post-reset state and a second
reset reproduces it. -/
theorem C9_reset_idempotent_witness :
    demoCursor.reset = Except.ok demoAfterReset ∧
    demoAfterReset.reset = Except.ok demoAfterReset :=
  ⟨by decide, C9_reset_idempotent demoCursor demoAfterReset (by decide)⟩

/-- C7: refuted as stated — on a prefix whose encoding fails the constructor
`unwrap`s and panics: no `EncodingError` value is propagated to the immediate
caller, unlike the spec-worded `construct_spec`, which returns the error. -/
theorem C7_counterexample :
    Cursor.new Bson.nan demoMC = ConstructResult.panicked ∧
    construct_spec Bson.nan demoMC = Except.error DbErr.encodingError :=
  ⟨rfl, rfl⟩

/-- C7 (amended): construction fails exactly when encoding the prefix fails,
and the failure is caller-visible, never silently swallowed — but it surfaces
as a panic (the source's `.unwrap()`), not as an `EncodingError` value
propagated to the immediate caller; on success the cursor starts with the
encoded prefix bytes and no cached key. -/
theorem C7_amended_construction (p : Bson) (kv : MultiCursor) :
    (Cursor.new p kv = ConstructResult.panicked ↔
      stacked_key_bytes p = Except.error DbErr.encodingError) ∧
    (∀ bs, stacked_key_bytes p = Except.ok bs →
      Cursor.new p kv = ConstructResult.ok ⟨p, bs, kv, none⟩) := by
  constructor
  · constructor
    · intro h
      unfold Cursor.new at h
      cases hb : stacked_key_bytes p with
      | error e => cases e; exact rfl
      | ok bs => rw [hb] at h; cases h
    · intro h
      unfold Cursor.new
      rw [h]
  · intro bs h
    unfold Cursor.new
    rw [h]

/-- C7 witness: a concrete encodable prefix constructs successfully with the
encoded prefix bytes. -/
theorem C7_amended_construction_witness :
    stacked_key_bytes (Bson.int 5) = Except.ok [1, 5] ∧
    Cursor.new (Bson.int 5) demoMC = ConstructResult.ok demoCursor :=
  ⟨by decide, (C7_amended_construction (Bson.int 5) demoMC).2 [1, 5] (by decide)⟩

/-- C3: with an encodable stacked key, `reset_by_pkey` returns `Ok` (a
non-error result even on a miss), its flag is true exactly when the landing
key is byte-equal to the requested stacked key `encode([prefix, p])`,
`current_key` is refreshed to the landing, and on a miss the cursor sits at
the insertion point — the smallest key `≥` the requested stacked key. -/
theorem C3_reset_by_pkey_exact (c : Cursor) (pkey : Bson) (kb : List Nat)
    (henc : stacked_key [c.prefix_doc, pkey] = Except.ok kb) :
    ∃ b c', c.reset_by_pkey pkey = Except.ok (b, c') ∧
      (b = true ↔ c'.kv_cursor.key = some kb) ∧
      c'.current_key = c'.kv_cursor.key ∧
      c'.kv_cursor.entries = c.kv_cursor.entries ∧
      (b = false → insertionPointAt c.kv_cursor.entries kb c'.kv_cursor.pos) := by
  have hrun : c.reset_by_pkey pkey =
      match (c.kv_cursor.seek kb).key with
      | some found => Except.ok (decide (found = kb),
          { c with kv_cursor := c.kv_cursor.seek kb, current_key := (c.kv_cursor.seek kb).key })
      | none => Except.ok (false,
          { c with kv_cursor := c.kv_cursor.seek kb, current_key := (c.kv_cursor.seek kb).key }) := by
    unfold Cursor.reset_by_pkey
    rw [henc]
  cases hk : (c.kv_cursor.seek kb).key with
  | none =>
    rw [hk] at hrun
    refine ⟨false, _, hrun, ?_, hk.symm, rfl, ?_⟩
    · constructor
      · intro h
        cases h
      · intro h
        have h' : (c.kv_cursor.seek kb).key = some kb := h
        rw [hk] at h'
        cases h'
    · intro _
      exact lowerBoundIdx_insertionPoint c.kv_cursor.entries kb
  | some found =>
    rw [hk] at hrun
    refine ⟨decide (found = kb), _, hrun, ?_, hk.symm, rfl, ?_⟩
    · constructor
      · intro hb
        show (c.kv_cursor.seek kb).key = some kb
        rw [hk]
        exact congrArg some (of_decide_eq_true hb)
      · intro hb
        have hb' : (c.kv_cursor.seek kb).key = some kb := hb
        rw [hk] at hb'
        injection hb' with hbk
        exact decide_eq_true hbk
    · intro _
      exact lowerBoundIdx_insertionPoint c.kv_cursor.entries kb

/-- C3 witness: a concrete point lookup for an absent primary key returns
`Ok false` and leaves the cursor at the insertion point. -/
theorem C3_reset_by_pkey_exact_witness :
    stacked_key [demoCursor.prefix_doc, Bson.int 3] = Except.ok [1, 5, 1, 3] ∧
    (∃ b c', demoCursor.reset_by_pkey (Bson.int 3) = Except.ok (b, c') ∧
      (b = true ↔ c'.kv_cursor.key = some [1, 5, 1, 3]) ∧
      c'.current_key = c'.kv_cursor.key ∧
      c'.kv_cursor.entries = demoCursor.kv_cursor.entries ∧
      (b = false →
        insertionPointAt demoCursor.kv_cursor.entries [1, 5, 1, 3] c'.kv_cursor.pos)) :=
  ⟨by decide, C3_reset_by_pkey_exact demoCursor (Bson.int 3) [1, 5, 1, 3] (by decide)⟩
